import Mathlib

/-!
Shallow embedding of `yew-api-hook` (src/src/hooks.rs, src/src/lib.rs).

The repository is a reactive async-task memoization engine for yew:
a memo cell (`use_memo_base`), a generation-guarded future hook
(`use_future_with_deps`), a deferred variant (`use_future_callback`)
and thin request-orchestration wrappers (`use_api*`, `use_cachable_api*`).

The embedding below translates:
  * `use_memo_base` (hooks.rs 454-482) as a pure function on an optional
    `MemoState`;
  * the slot state of `use_future_with_deps` (hooks.rs 344-384) as a
    `FutureState` with explicit render / task-completion steps, in-flight
    futures carried as a pending list so that out-of-order completion can
    be modelled;
  * the slot state of `use_future_callback` (hooks.rs 386-452) as a
    `CallbackState` with render / trigger / completion steps;
  * the async closure bodies of the wrapper hooks (hooks.rs 49-73,
    123-163, 177-208, 252-300) as pure functions returning the closure's
    value together with the ordered list of effects it performs.
Machine integers: `latest_id` is a `u32` `Cell`; it is modelled as a `Nat`
with `wrapping_add(1)` made explicit as `(n + 1) % 2^32`.
-/

namespace YewApiHook

/-- The memo slot of `use_memo_base` (hooks.rs 462-465):
`struct MemoState<T, K> { memo_key: K, result: Rc<T> }`. -/
structure MemoState (T K : Type) where
  memo_key : K
  result : T
  deriving DecidableEq, Repr

/-- Shallow embedding of `use_memo_base` (hooks.rs 454-482).
`borrow` is the `Borrow<D>` view of the stored key `K`.  The stored state
is dropped when the borrowed stored key differs from the new `deps`
(hooks.rs 469-475), then `get_or_insert_with` either returns the retained
pair or invokes `f` once (hooks.rs 476-480).  Returns the memoized value
together with the new slot state. -/
def use_memo_base {T K D : Type} [DecidableEq D] (borrow : K → D)
    (f : D → T × K) (st : Option (MemoState T K)) (deps : D) :
    T × Option (MemoState T K) :=
  let st1 : Option (MemoState T K) :=
    match st with
    | some existing => if borrow existing.memo_key ≠ deps then none else some existing
    | none => none
  match st1 with
  | some s => (s.result, some s)
  | none =>
    let fd := f deps
    (fd.1, some { memo_key := fd.2, result := fd.1 })

/-- Whether a render of the memo slot hits the retained pair (the stored
key, seen through `borrow`, equals the incoming `deps`): exactly the
condition under which `use_memo_base` does not invoke `f`. -/
def memoHit {T K D : Type} [DecidableEq D] (borrow : K → D)
    (st : Option (MemoState T K)) (deps : D) : Bool :=
  match st with
  | some existing => decide (borrow existing.memo_key = deps)
  | none => false

/-- A sequence of renders of one memo slot: folds `use_memo_base` over the
list of keys and counts the renders that miss (the renders on which `f` is
invoked). -/
def memoRun {T K D : Type} [DecidableEq D] (borrow : K → D)
    (f : D → T × K) : Option (MemoState T K) → List D → Option (MemoState T K) × Nat
  | st, [] => (st, 0)
  | st, d :: ds =>
    let c : Nat := if memoHit borrow st d then 0 else 1
    let st1 := (use_memo_base borrow f st d).2
    let rest := memoRun borrow f st1 ds
    (rest.1, c + rest.2)

/-- Number of keys in the list that open a new maximal run of equal keys,
relative to an optional previous key. -/
def chgCount {D : Type} [DecidableEq D] : Option D → List D → Nat
  | _, [] => 0
  | none, d :: ds => 1 + chgCount (some d) ds
  | some p, d :: ds => (if p = d then 0 else 1) + chgCount (some d) ds

/-- Number of maximal runs of equal adjacent keys in a render sequence. -/
def runCount {D : Type} [DecidableEq D] (keys : List D) : Nat :=
  chgCount none keys

theorem use_memo_base_hit {T K D : Type} [DecidableEq D] (borrow : K → D)
    (f : D → T × K) (e : MemoState T K) (deps : D)
    (h : borrow e.memo_key = deps) :
    use_memo_base borrow f (some e) deps = (e.result, some e) := by
  simp [use_memo_base, h]

theorem use_memo_base_missSome {T K D : Type} [DecidableEq D] (borrow : K → D)
    (f : D → T × K) (e : MemoState T K) (deps : D)
    (h : borrow e.memo_key ≠ deps) :
    use_memo_base borrow f (some e) deps
      = ((f deps).1, some { memo_key := (f deps).2, result := (f deps).1 }) := by
  simp [use_memo_base, h]

theorem use_memo_base_none {T K D : Type} [DecidableEq D] (borrow : K → D)
    (f : D → T × K) (deps : D) :
    use_memo_base borrow f none deps
      = ((f deps).1, some { memo_key := (f deps).2, result := (f deps).1 }) := by
  simp [use_memo_base]

/-- The stored key, as the memo comparison sees it. -/
def storedKey {T K D : Type} (borrow : K → D) (st : Option (MemoState T K)) :
    Option D :=
  st.map (fun e => borrow e.memo_key)

theorem memoRun_count {T D : Type} [DecidableEq D] (g : D → T)
    (keys : List D) :
    ∀ st : Option (MemoState T D),
      (memoRun id (fun d => (g d, d)) st keys).2 = chgCount (storedKey id st) keys := by
  induction keys with
  | nil => intro st; simp [memoRun, chgCount]
  | cons d ds ih =>
    intro st
    match st with
    | none =>
      simp [memoRun, memoHit, chgCount, storedKey, use_memo_base_none, ih]
    | some e =>
      by_cases h : e.memo_key = d
      · simp [memoRun, memoHit, storedKey, h, chgCount,
              use_memo_base_hit id (fun d => (g d, d)) e d h, ih]
      · simp [memoRun, memoHit, storedKey, h, chgCount,
              use_memo_base_missSome id (fun d => (g d, d)) e d h, ih]

/-- `u32::wrapping_add(1)` on the generation counter (hooks.rs 362, 421):
`latest_id.get().wrapping_add(1)` with `latest_id : Cell<u32>`. -/
def wrapAdd1 (n : Nat) : Nat := (n + 1) % 2 ^ 32

/-- One spawned future of a slot.  `serial` is the model-level identity of
the `Suspension` object created by `Suspension::from_future` (serials are
allocated 0, 1, 2, … and never reused); `gen` is the `self_id` generation
stamp captured by the future's closure (hooks.rs 362, 421); `result` is the
value `task.await` will produce. -/
structure TaskRec (O : Type) where
  serial : Nat
  gen : Nat
  result : O
  deriving DecidableEq, Repr

/-- The render-scoped slot state of `use_future_with_deps`
(hooks.rs 344-384): `output` is the `use_state(|| None)` cell, `latest_id`
the `Cell<u32>` generation counter, `memo` the `use_memo_base` slot whose
stored value is the current `Suspension` (represented by its serial) and
whose key is the deps value; `pending` are the spawned futures not yet
finished, `resolved` the serials of the futures that have finished (a
`Suspension` reports `resumed()` exactly when its backing future finished).
`serials` is the model's next fresh serial. -/
structure FutureState (D O : Type) where
  output : Option O
  latest_id : Nat
  serials : Nat
  memo : Option (MemoState Nat D)
  pending : List (TaskRec O)
  resolved : List Nat
  deriving DecidableEq, Repr

/-- The slot state at mount: `use_state(|| None)`, `Cell::new(0u32)`, empty
memo slot, no futures spawned. -/
def initFuture {D O : Type} : FutureState D O :=
  { output := none, latest_id := 0, serials := 0, memo := none,
    pending := [], resolved := [] }

/-- The miss branch of the memoized closure in `use_future_with_deps`
(hooks.rs 361-373): allocate `self_id = latest_id.wrapping_add(1)`, store
it back into the counter, build the task from `f` and hand it to
`Suspension::from_future`; the new `(suspension, deps)` pair becomes the
memo slot's stored value/key.  `taskResult deps` is the value the spawned
future will eventually produce. -/
def spawnFuture {D O : Type} (taskResult : D → O) (s : FutureState D O)
    (deps : D) : FutureState D O :=
  { s with
    latest_id := wrapAdd1 s.latest_id,
    serials := s.serials + 1,
    memo := some { memo_key := deps, result := s.serials },
    pending := { serial := s.serials, gen := wrapAdd1 s.latest_id,
                 result := taskResult deps } :: s.pending }

/-- One render of `use_future_with_deps` (hooks.rs 357-377): the
`use_memo_base` key comparison retains the stored suspension when the deps
are unchanged, otherwise drops it and runs the miss branch
(`spawnFuture`). -/
def renderFuture {D O : Type} [DecidableEq D] (taskResult : D → O)
    (s : FutureState D O) (deps : D) : FutureState D O :=
  match s.memo with
  | some m => if m.memo_key = deps then s else spawnFuture taskResult s deps
  | none => spawnFuture taskResult s deps

/-- Completion of the spawned future with serial `sn` (hooks.rs 367-372):
`let result = task.await; if latest_id.get() == self_id { output.set(Some(result)) }`,
after which the suspension resolves.  A serial that is not in flight
changes nothing. -/
def completeFuture {D O : Type} (s : FutureState D O) (sn : Nat) :
    FutureState D O :=
  match s.pending.find? (fun t => t.serial == sn) with
  | none => s
  | some t =>
    { s with
      output := if s.latest_id = t.gen then some t.result else s.output,
      pending := s.pending.filter (fun u => u.serial != sn),
      resolved := sn :: s.resolved }

/-- An event in the life of one `use_future_with_deps` slot: a render with
a deps value, or the completion of the spawned future with a serial. -/
inductive FEvent (D : Type) where
  | render (deps : D)
  | complete (sn : Nat)
  deriving DecidableEq, Repr

def stepFuture {D O : Type} [DecidableEq D] (taskResult : D → O)
    (s : FutureState D O) : FEvent D → FutureState D O
  | .render deps => renderFuture taskResult s deps
  | .complete sn => completeFuture s sn

/-- The slot state after a sequence of events, starting from mount. -/
def runFuture {D O : Type} [DecidableEq D] (taskResult : D → O)
    (evs : List (FEvent D)) : FutureState D O :=
  evs.foldl (stepFuture taskResult) initFuture

/-- What `use_future_with_deps` returns at a render (hooks.rs 379-383):
`some o` models `Ok(UseFutureHandle { inner: output })` with `o` the output
cell's contents, `none` models `Err(suspension.clone())` (still pending). -/
def futureView {D O : Type} (s : FutureState D O) : Option (Option O) :=
  match s.memo with
  | some m => if s.resolved.contains m.result then some s.output else none
  | none => none

/-- `UseFutureHandle` (hooks.rs 314-316): wraps the output state cell. -/
structure UseFutureHandle (O : Type) where
  inner : Option O

/-- `UseFutureHandle::deref` (hooks.rs 318-324) is
`self.inner.as_ref().unwrap()`: the value when the cell holds `Some`;
the `none` case models the panicking `unwrap` of the `None` branch. -/
def UseFutureHandle.deref {O : Type} (h : UseFutureHandle O) : Option O :=
  h.inner

/-- The render-scoped slot state of `use_future_callback`
(hooks.rs 386-452).  On top of the `use_future_with_deps` slot it adds the
arm flag `execution` (`use_state(|| false)`, hooks.rs 400); the memo key is
the pair `(deps, execution-value)` (hooks.rs 414, 433) and the memo's
stored value is `Option<Suspension>` — `none` when computed while
disarmed (hooks.rs 417-419). -/
structure CallbackState (D O : Type) where
  execution : Bool
  output : Option O
  latest_id : Nat
  serials : Nat
  memo : Option (MemoState (Option Nat) (D × Bool))
  pending : List (TaskRec O)
  resolved : List Nat
  deriving DecidableEq, Repr

/-- The deferred slot at mount: flag false, empty output, counter 0,
empty memo slot, no futures. -/
def initCallback {D O : Type} : CallbackState D O :=
  { execution := false, output := none, latest_id := 0, serials := 0,
    memo := none, pending := [], resolved := [] }

/-- The `execute` callback (hooks.rs 401-404): `execution.set(true)`. -/
def triggerCallback {D O : Type} (s : CallbackState D O) : CallbackState D O :=
  { s with execution := true }

/-- The armed miss branch of the memoized closure in `use_future_callback`
(hooks.rs 421-433): allocate the next generation id, spawn the task, and
store `(Some(suspension), (deps, execution-value))` in the memo slot
(the flag's value is `true` here, the branch is reached only when
`*execution` holds). -/
def spawnCallback {D O : Type} (taskResult : D → O) (s : CallbackState D O)
    (deps : D) : CallbackState D O :=
  { s with
    latest_id := wrapAdd1 s.latest_id,
    serials := s.serials + 1,
    memo := some { memo_key := (deps, true), result := some s.serials },
    pending := { serial := s.serials, gen := wrapAdd1 s.latest_id,
                 result := taskResult deps } :: s.pending }

/-- One render of `use_future_callback` (hooks.rs 411-437): the memo key is
`(deps, execution-value)`; on a miss, a disarmed slot stores
`(None, (deps, false))` without constructing a task (hooks.rs 417-419),
an armed slot spawns (hooks.rs 421-433). -/
def renderCallback {D O : Type} [DecidableEq D] (taskResult : D → O)
    (s : CallbackState D O) (deps : D) : CallbackState D O :=
  let recompute : CallbackState D O :=
    if s.execution then spawnCallback taskResult s deps
    else { s with memo := some { memo_key := (deps, false), result := none } }
  match s.memo with
  | some m => if m.memo_key = (deps, s.execution) then s else recompute
  | none => recompute

/-- Completion of the spawned future with serial `sn` in the deferred hook
(hooks.rs 425-432): commit the result when the generation still matches,
then `execution.set(false)` — the flag reset is unconditional in the
source, it is outside the generation check. -/
def completeCallback {D O : Type} (s : CallbackState D O) (sn : Nat) :
    CallbackState D O :=
  match s.pending.find? (fun t => t.serial == sn) with
  | none => s
  | some t =>
    { s with
      output := if s.latest_id = t.gen then some t.result else s.output,
      execution := false,
      pending := s.pending.filter (fun u => u.serial != sn),
      resolved := sn :: s.resolved }

/-- An event in the life of one `use_future_callback` slot: a render, an
emission of the trigger callback, or the completion of a spawned future. -/
inductive CEvent (D : Type) where
  | render (deps : D)
  | trigger
  | complete (sn : Nat)
  deriving DecidableEq, Repr

def stepCallback {D O : Type} [DecidableEq D] (taskResult : D → O)
    (s : CallbackState D O) : CEvent D → CallbackState D O
  | .render deps => renderCallback taskResult s deps
  | .trigger => triggerCallback s
  | .complete sn => completeCallback s sn

/-- The deferred slot state after a sequence of events, from mount. -/
def runCallback {D O : Type} [DecidableEq D] (taskResult : D → O)
    (evs : List (CEvent D)) : CallbackState D O :=
  evs.foldl (stepCallback taskResult) initCallback

/-- The second component `use_future_callback` returns (hooks.rs 439-451):
`noData` is `None`; `pendingData` is `Some(Err(suspension))`;
`readyData o` is `Some(Ok(UseFutureHandle { inner: output }))` with `o`
the output cell's contents. -/
inductive CallbackView (O : Type) where
  | noData
  | pendingData
  | readyData (o : Option O)
  deriving DecidableEq, Repr

def callbackView {D O : Type} (s : CallbackState D O) : CallbackView O :=
  match s.memo with
  | some m =>
    match m.result with
    | some sn =>
      if s.resolved.contains sn then .readyData s.output else .pendingData
    | none => if s.output.isSome then .readyData s.output else .noData
  | none => if s.output.isSome then .readyData s.output else .noData

/-- The `data` field of `DynLazyResponse` as computed by
`use_api_dynamic_with_options` (hooks.rs 156-162) from the
`use_future_callback` result, whose futures produce an
`Option<Result<...>>` (`None` when the stored request was `None`):
`none` maps to `data = None`; `Some(Ok(handle))` whose cell holds
`Some(None)` is the `Some(Ok(false))` early return, `data = None`;
a cell holding `Some(Some(t))` unwraps to `Some(Ok(t))`; a cell holding
`None` would panic in `deref` (`panicData`). -/
inductive DynData (T : Type) where
  | noData
  | pendingData
  | readyData (t : T)
  | panicData
  deriving DecidableEq, Repr

def dynResponseData {T : Type} : CallbackView (Option T) → DynData T
  | .noData => .noData
  | .pendingData => .pendingData
  | .readyData none => .panicData
  | .readyData (some none) => .noData
  | .readyData (some (some t)) => .readyData t

instance {E O : Type} [DecidableEq E] [DecidableEq O] :
    DecidableEq (Except E O) := fun a b =>
  match a, b with
  | .ok x, .ok y =>
    if h : x = y then isTrue (by rw [h]) else isFalse (by simp [h])
  | .ok _, .error _ => isFalse (by simp)
  | .error _, .ok _ => isFalse (by simp)
  | .error x, .error y =>
    if h : x = y then isTrue (by rw [h]) else isFalse (by simp [h])

/-- An observable effect performed by a wrapper hook's async closure:
`load` is the cache lookup `deps.0.load(store)`, `run` is
`request.run().await`, `handler r` is `handler.emit(result)` with the full
`Result` it receives, `store v` is `R::store(data)` with the success
payload it receives.  `Result<Output, Error>` is embedded as
`Except E O`. -/
inductive Effect (E O : Type) where
  | load
  | run
  | handler (r : Except E O)
  | store (v : O)
  deriving DecidableEq, Repr

/-- The async closure of `use_api_with_options` (hooks.rs 56-68): run the
request, emit the handler (when one is given) with the full result, call
`R::store` on success, return the result.  The request itself is opaque:
it is represented by the `Result` its `run()` produces.  Returns the
closure's value together with the ordered effect trace. -/
def apiTaskBody {E O : Type} (runResult : Except E O) (hasHandler : Bool) :
    Except E O × List (Effect E O) :=
  let afterRun : List (Effect E O) := [Effect.run]
  let afterHandler : List (Effect E O) :=
    if hasHandler then afterRun ++ [Effect.handler runResult] else afterRun
  let trace : List (Effect E O) :=
    match runResult with
    | Except.ok d => afterHandler ++ [Effect.store d]
    | Except.error _ => afterHandler
  (runResult, trace)

/-- The async closure of `use_api_dynamic_with_options` (hooks.rs 131-147):
when the stored request is `None`, return `None` at once with no effects;
otherwise run, emit the handler, store on success and return
`Some(result)`. -/
def dynApiTaskBody {E O : Type} (request : Option (Except E O))
    (hasHandler : Bool) : Option (Except E O) × List (Effect E O) :=
  match request with
  | none => (none, [])
  | some runResult =>
    let afterRun : List (Effect E O) := [Effect.run]
    let afterHandler : List (Effect E O) :=
      if hasHandler then afterRun ++ [Effect.handler runResult] else afterRun
    let trace : List (Effect E O) :=
      match runResult with
      | Except.ok d => afterHandler ++ [Effect.store d]
      | Except.error _ => afterHandler
    (some runResult, trace)

/-- The async closure of `use_cachable_api_with_options` (hooks.rs 187-203):
first the cache lookup `deps.0.load(store)`; on `Some(cache)` return
`Ok(cache)` at once, else run, emit the handler, store on success, return
the result.  `cache` is what `load` returns for this request. -/
def cachableApiTaskBody {E O : Type} (cache : Option O)
    (runResult : Except E O) (hasHandler : Bool) :
    Except E O × List (Effect E O) :=
  match cache with
  | some v => (Except.ok v, [Effect.load])
  | none =>
    let afterRun : List (Effect E O) := [Effect.load, Effect.run]
    let afterHandler : List (Effect E O) :=
      if hasHandler then afterRun ++ [Effect.handler runResult] else afterRun
    let trace : List (Effect E O) :=
      match runResult with
      | Except.ok d => afterHandler ++ [Effect.store d]
      | Except.error _ => afterHandler
    (runResult, trace)

/-- The async closure of `use_cachable_api_dynamic_with_options`
(hooks.rs 264-284): `None` when no request is stored; otherwise the cache
lookup, then on a hit `Some(Ok(cache))` at once, else run / handler /
store-on-success / `Some(result)`.  The stored request is represented by
the pair of its `load` result and its `run` result. -/
def dynCachableApiTaskBody {E O : Type}
    (request : Option (Option O × Except E O)) (hasHandler : Bool) :
    Option (Except E O) × List (Effect E O) :=
  match request with
  | none => (none, [])
  | some rq =>
    match rq.1 with
    | some v => (some (Except.ok v), [Effect.load])
    | none =>
      let afterRun : List (Effect E O) := [Effect.load, Effect.run]
      let afterHandler : List (Effect E O) :=
        if hasHandler then afterRun ++ [Effect.handler rq.2] else afterRun
      let trace : List (Effect E O) :=
        match rq.2 with
        | Except.ok d => afterHandler ++ [Effect.store d]
        | Except.error _ => afterHandler
      (some rq.2, trace)

/-- C2: for every sequence of renders of one memo slot, the compute
function is invoked exactly once per maximal run of renders with equal
keys: a render whose key equals the stored key returns the stored value
and leaves the slot unchanged (the result does not depend on the compute
function at all), a render with an unequal key discards the stored pair
and recomputes, and over any render sequence from a fresh slot the number
of compute invocations equals the number of maximal runs of equal
adjacent keys. -/
theorem C2_memoize_once_per_run :
    (∀ (g : Nat → Nat) (e : MemoState Nat Nat) (d : Nat), e.memo_key = d →
      use_memo_base id (fun x => (g x, x)) (some e) d = (e.result, some e))
    ∧ (∀ (g : Nat → Nat) (e : MemoState Nat Nat) (d : Nat), e.memo_key ≠ d →
      use_memo_base id (fun x => (g x, x)) (some e) d
        = (g d, some { memo_key := d, result := g d }))
    ∧ (∀ (g : Nat → Nat) (keys : List Nat),
      (memoRun id (fun x => (g x, x)) none keys).2 = runCount keys) := by
  refine ⟨?_, ?_, ?_⟩
  · intro g e d h
    exact use_memo_base_hit id (fun x => (g x, x)) e d h
  · intro g e d h
    simpa using use_memo_base_missSome id (fun x => (g x, x)) e d h
  · intro g keys
    simpa [runCount, storedKey] using memoRun_count g keys none

/-- C1: a completed task's result is committed to the output cell only if
the generation stamped on the task still equals the slot's current
generation at completion time — in both `use_future_with_deps` and
`use_future_callback` a mismatched completion leaves the output unchanged
— and in the concrete two-task scenario (T1 with generation 1, then T2
with generation 2, on one slot) where T2's result is committed first,
T1's later completion leaves the committed output equal to T2's result. -/
theorem C1_stale_result_suppressed :
    (∀ (s : FutureState Nat Nat) (sn : Nat) (t : TaskRec Nat),
      s.pending.find? (fun u => u.serial == sn) = some t →
      s.latest_id ≠ t.gen →
      (completeFuture s sn).output = s.output)
    ∧ (∀ (s : CallbackState Nat Nat) (sn : Nat) (t : TaskRec Nat),
      s.pending.find? (fun u => u.serial == sn) = some t →
      s.latest_id ≠ t.gen →
      (completeCallback s sn).output = s.output)
    ∧ (runFuture (fun d => d)
        [FEvent.render 10, FEvent.render 20, FEvent.complete 1]).output
      = some 20
    ∧ (runFuture (fun d => d)
        [FEvent.render 10, FEvent.render 20, FEvent.complete 1,
         FEvent.complete 0]).output
      = some 20 := by
  refine ⟨?_, ?_, by decide, by decide⟩
  · intro s sn t hf hg
    simp [completeFuture, hf, hg]
  · intro s sn t hf hg
    simp [completeCallback, hf, hg]

theorem runFuture_append_one {D O : Type} [DecidableEq D] (f : D → O)
    (evs : List (FEvent D)) (e : FEvent D) :
    runFuture f (evs ++ [e]) = stepFuture f (runFuture f evs) e := by
  simp [runFuture, List.foldl_append]

/-- After `n` renders of `use_future_with_deps` with the pairwise distinct
keys `0, …, n-1`, the slot's generation counter holds `n % 2^32`, `n`
futures were spawned, the memo slot holds the `n`-th suspension, and the
most recently spawned task is stamped with generation `n % 2^32`. -/
theorem runFuture_range (n : Nat) :
    (runFuture (fun d => d) ((List.range n).map FEvent.render)).latest_id
      = n % 2 ^ 32
    ∧ (runFuture (fun d => d) ((List.range n).map FEvent.render)).serials = n
    ∧ (runFuture (fun d => d) ((List.range n).map FEvent.render)).memo
      = (if n = 0 then none
         else some { memo_key := n - 1, result := n - 1 })
    ∧ (0 < n →
        (runFuture (fun d => d)
            ((List.range n).map FEvent.render)).pending.head?
        = some { serial := n - 1, gen := n % 2 ^ 32, result := n - 1 }) := by
  induction n with
  | zero => simp [runFuture, initFuture]
  | succ n ih =>
    obtain ⟨h1, h2, h3, _h4⟩ := ih
    have hr : (List.range (n + 1)).map (FEvent.render (D := Nat))
        = (List.range n).map FEvent.render ++ [FEvent.render n] := by
      simp [List.range_succ]
    rw [hr, runFuture_append_one]
    by_cases hn : n = 0
    · subst hn
      decide
    · have hlt : n - 1 ≠ n := by omega
      simp [stepFuture, renderFuture, h3, hn, hlt, spawnFuture, wrapAdd1,
        h1, h2, Nat.mod_add_mod]

/-- C7: the generation counter of a task slot (in both
`use_future_with_deps` and `use_future_callback`) starts at 0; each
allocation computes the previous value plus one wrapping modulo `2^32`,
stores it back as the slot's current generation and stamps the spawned
task with it; and after `n` tasks started on a fresh slot the `n`-th task
carries generation `n % 2^32`. -/
theorem C7_generation_counter :
    (initFuture : FutureState Nat Nat).latest_id = 0
    ∧ (initCallback : CallbackState Nat Nat).latest_id = 0
    ∧ (∀ n : Nat, wrapAdd1 n = (n + 1) % 2 ^ 32)
    ∧ (∀ (f : Nat → Nat) (s : FutureState Nat Nat) (deps : Nat),
      memoHit id s.memo deps = false →
      (renderFuture f s deps).latest_id = (s.latest_id + 1) % 2 ^ 32
      ∧ (renderFuture f s deps).pending.head?
        = some { serial := s.serials, gen := (s.latest_id + 1) % 2 ^ 32,
                 result := f deps })
    ∧ (∀ (f : Nat → Nat) (s : CallbackState Nat Nat) (deps : Nat),
      (spawnCallback f s deps).latest_id = (s.latest_id + 1) % 2 ^ 32
      ∧ (spawnCallback f s deps).pending.head?
        = some { serial := s.serials, gen := (s.latest_id + 1) % 2 ^ 32,
                 result := f deps })
    ∧ (∀ n : Nat,
      (runFuture (fun d => d) ((List.range n).map FEvent.render)).latest_id
        = n % 2 ^ 32
      ∧ (0 < n →
          (runFuture (fun d => d)
              ((List.range n).map FEvent.render)).pending.head?
          = some { serial := n - 1, gen := n % 2 ^ 32, result := n - 1 })) := by
  refine ⟨rfl, rfl, fun n => rfl, ?_, ?_, ?_⟩
  · intro f s deps hmiss
    match hm : s.memo with
    | none => simp [renderFuture, hm, spawnFuture, wrapAdd1]
    | some m =>
      have hne : m.memo_key ≠ deps := by
        intro h
        simp [memoHit, hm, h] at hmiss
      simp [renderFuture, hm, hne, spawnFuture, wrapAdd1]
  · intro f s deps
    simp [spawnCallback, wrapAdd1]
  · intro n
    exact ⟨(runFuture_range n).1, (runFuture_range n).2.2.2⟩

/-- C6: completing a task resolves the suspension (the hook stops
returning Pending) regardless of whether the task's `Result` is `Ok` or
`Err`: any in-flight task's completion marks its suspension resolved, a
matched completion commits the verbatim `Result` (success or error)
through the same channel uninspected, and once the memo-held suspension
has resolved, `use_future_with_deps` returns `Ok` rather than `Err`. -/
theorem C6_error_resolves_like_success
    (s : FutureState Nat (Except Nat Nat)) (sn : Nat)
    (t : TaskRec (Except Nat Nat))
    (hf : s.pending.find? (fun u => u.serial == sn) = some t) :
    (completeFuture s sn).resolved.contains sn = true
    ∧ (s.latest_id = t.gen →
        (completeFuture s sn).output = some t.result)
    ∧ (∀ m, s.memo = some m → m.result = sn →
        futureView (completeFuture s sn)
          = some (completeFuture s sn).output) := by
  refine ⟨?_, ?_, ?_⟩
  · simp [completeFuture, hf]
  · intro hg
    simp [completeFuture, hf, hg]
  · intro m hm hr
    simp [completeFuture, hf, futureView, hm, hr]

/-- A concrete `use_future_with_deps` slot: one in-flight task, stamped
with the slot's current generation 1, whose future will produce the error
result `Err 7`. -/
def c6slot : FutureState Nat (Except Nat Nat) :=
  { output := none, latest_id := 1, serials := 1,
    memo := some { memo_key := 0, result := 0 },
    pending := [{ serial := 0, gen := 1, result := Except.error 7 }],
    resolved := [] }

theorem C6_error_resolves_like_success_witness :
    (completeFuture c6slot 0).resolved.contains 0 = true
    ∧ (c6slot.latest_id = 1 →
        (completeFuture c6slot 0).output = some (Except.error 7))
    ∧ (∀ m, c6slot.memo = some m → m.result = 0 →
        futureView (completeFuture c6slot 0)
          = some (completeFuture c6slot 0).output) :=
  C6_error_resolves_like_success c6slot 0
    { serial := 0, gen := 1, result := Except.error 7 } (by decide)

/-- C5 counterexample: at the concrete input `Ok 5` with a caller-supplied
handler present, the task factory of `use_api_with_options` (and of
`use_api_dynamic_with_options`) emits the handler BEFORE invoking
`R::store`: the effect trace is `[run, handler (Ok 5), store 5]`, so
store-on-success does not happen before the handler is called. -/
theorem C5_counterexample :
    (apiTaskBody (Except.ok 5 : Except Nat Nat) true).2
      = [Effect.run, Effect.handler (Except.ok 5), Effect.store 5]
    ∧ ¬ ((apiTaskBody (Except.ok 5 : Except Nat Nat) true).2.indexOf
          (Effect.store 5)
        < (apiTaskBody (Except.ok 5 : Except Nat Nat) true).2.indexOf
          (Effect.handler (Except.ok 5)))
    ∧ (dynApiTaskBody (some (Except.ok 5 : Except Nat Nat)) true).2
      = [Effect.run, Effect.handler (Except.ok 5), Effect.store 5] := by
  decide

/-- C5 (amended): every run of the task factory of `use_api_with_options`
or `use_api_dynamic_with_options` invokes `request.run()`, then invokes
the caller-supplied handler (when one is given) with the verbatim full
`Result` (success or error), then invokes `request.store` with the output
on success, before the task returns the verbatim `Result` — the handler
call precedes store-on-success. -/
theorem C5_run_handler_store_order :
    (∀ (r : Except Nat Nat) (hh : Bool),
      (apiTaskBody r hh).1 = r
      ∧ (apiTaskBody r hh).2
        = [Effect.run]
          ++ (if hh then [Effect.handler r] else [])
          ++ (match r with
              | Except.ok d => [Effect.store d]
              | Except.error _ => []))
    ∧ (∀ (r : Except Nat Nat) (hh : Bool),
      (dynApiTaskBody (some r) hh).1 = some r
      ∧ (dynApiTaskBody (some r) hh).2
        = [Effect.run]
          ++ (if hh then [Effect.handler r] else [])
          ++ (match r with
              | Except.ok d => [Effect.store d]
              | Except.error _ => [])) := by
  constructor <;> intro r hh <;> cases r <;> cases hh <;>
    simp [apiTaskBody, dynApiTaskBody]

/-- C10: when the cache lookup hits (`load` returns `Some v`) the task of
a cache-aware hook performs no other effect: its trace is the lone cache
lookup, so the handler is never emitted and `store` is never invoked for
that task. -/
theorem C10_cache_hit_is_pure :
    ∀ (v : Nat) (r : Except Nat Nat) (hh : Bool),
      (cachableApiTaskBody (some v) r hh).2 = [Effect.load]
      ∧ (dynCachableApiTaskBody (some (some v, r)) hh).2 = [Effect.load]
      ∧ (∀ rr : Except Nat Nat,
          Effect.handler rr ∉ (cachableApiTaskBody (some v) r hh).2
          ∧ Effect.handler rr ∉ (dynCachableApiTaskBody (some (some v, r)) hh).2)
      ∧ (∀ w : Nat,
          Effect.store w ∉ (cachableApiTaskBody (some v) r hh).2
          ∧ Effect.store w ∉ (dynCachableApiTaskBody (some (some v, r)) hh).2) := by
  intro v r hh
  refine ⟨rfl, rfl, ?_, ?_⟩ <;> intro x <;>
    simp [cachableApiTaskBody, dynCachableApiTaskBody]

/-- C4: in the cache-aware hooks, a request whose cache lookup returns
`Some v` never invokes `run()` — `Effect.run` is not in the task's trace —
the task's value is `Ok v`, and a matched-generation completion of such a
task commits exactly `Ok v` to the output cell. -/
theorem C4_cache_short_circuit :
    ∀ (v : Nat) (r : Except Nat Nat) (hh : Bool),
      Effect.run ∉ (cachableApiTaskBody (some v) r hh).2
      ∧ (cachableApiTaskBody (some v) r hh).1 = Except.ok v
      ∧ Effect.run ∉ (dynCachableApiTaskBody (some (some v, r)) hh).2
      ∧ (dynCachableApiTaskBody (some (some v, r)) hh).1
        = some (Except.ok v)
      ∧ (∀ (s : FutureState Nat (Except Nat Nat)) (sn : Nat)
          (t : TaskRec (Except Nat Nat)),
          s.pending.find? (fun u => u.serial == sn) = some t →
          t.result = (cachableApiTaskBody (some v) r hh).1 →
          s.latest_id = t.gen →
          (completeFuture s sn).output = some (Except.ok v)) := by
  intro v r hh
  refine ⟨?_, rfl, ?_, rfl, ?_⟩
  · simp [cachableApiTaskBody]
  · simp [dynCachableApiTaskBody]
  · intro s sn t hf ht hg
    simp [completeFuture, hf, hg, ht, cachableApiTaskBody]

/-- C3 counterexample: trigger, render deps 10 (task serial 0, generation
1), render deps 20 while still armed (task serial 1, generation 2).  The
arm flag is still true and the slot's current generation is 2; completing
the superseded task (serial 0, generation 1 — a mismatched generation,
its result is indeed not committed) nevertheless resets the arm flag to
false: in the source `execution.set(false)` sits outside the generation
check. -/
theorem C3_counterexample :
    (runCallback (fun d => d)
        [CEvent.trigger, CEvent.render 10, CEvent.render 20]).execution
      = true
    ∧ (runCallback (fun d => d)
        [CEvent.trigger, CEvent.render 10, CEvent.render 20]).latest_id = 2
    ∧ (runCallback (fun d => d)
        [CEvent.trigger, CEvent.render 10, CEvent.render 20]).pending.find?
        (fun u => u.serial == 0)
      = some { serial := 0, gen := 1, result := 10 }
    ∧ (completeCallback
        (runCallback (fun d => d)
          [CEvent.trigger, CEvent.render 10, CEvent.render 20]) 0).output
      = (runCallback (fun d => d)
          [CEvent.trigger, CEvent.render 10, CEvent.render 20]).output
    ∧ (completeCallback
        (runCallback (fun d => d)
          [CEvent.trigger, CEvent.render 10, CEvent.render 20]) 0).execution
      = false := by
  decide

/-- C3 (amended): in the deferred hook the arm flag is reset to false on
EVERY in-flight task's completion, regardless of whether the task's
generation still matches the slot's current generation (and regardless of
the success or failure of the task's own `Result`). -/
theorem C3_arm_reset_unconditional :
    ∀ (s : CallbackState Nat Nat) (sn : Nat) (t : TaskRec Nat),
      s.pending.find? (fun u => u.serial == sn) = some t →
      (completeCallback s sn).execution = false := by
  intro s sn t hf
  simp [completeCallback, hf]

theorem C3_arm_reset_unconditional_witness :
    (completeCallback
      (runCallback (fun d => d)
        [CEvent.trigger, CEvent.render 10, CEvent.render 20]) 0).execution
    = false :=
  C3_arm_reset_unconditional
    (runCallback (fun d => d)
      [CEvent.trigger, CEvent.render 10, CEvent.render 20]) 0
    { serial := 0, gen := 1, result := 10 } (by decide)

/-- A deferred slot on which the trigger callback has never been emitted:
disarmed, no future ever spawned, empty output. -/
def NeverArmed {D O : Type} (s : CallbackState D O) : Prop :=
  s.execution = false ∧ s.serials = 0 ∧ s.pending = [] ∧ s.output = none
  ∧ s.resolved = [] ∧ s.latest_id = 0
  ∧ (s.memo = none
     ∨ ∃ d : D, s.memo = some { memo_key := (d, false), result := none })

theorem neverArmed_init {D O : Type} :
    NeverArmed (initCallback : CallbackState D O) := by
  simp [NeverArmed, initCallback]

theorem neverArmed_step {D O : Type} [DecidableEq D] (f : D → O)
    (s : CallbackState D O) (e : CEvent D) (he : e ≠ CEvent.trigger)
    (hs : NeverArmed s) : NeverArmed (stepCallback f s e) := by
  obtain ⟨h1, h2, h3, h4, h5, h6, h7⟩ := hs
  cases e with
  | trigger => exact absurd rfl he
  | complete sn =>
    simpa [stepCallback, completeCallback, h3] using
      ⟨h1, h2, h3, h4, h5, h6, h7⟩
  | render d =>
    rcases h7 with hm | ⟨d1, hm⟩
    · refine ⟨?_, ?_, ?_, ?_, ?_, ?_, Or.inr ⟨d, ?_⟩⟩ <;>
        simp [stepCallback, renderCallback, hm, h1, h2, h3, h4, h5, h6]
    · by_cases hd : d1 = d
      · subst hd
        have hstep : stepCallback f s (CEvent.render d1) = s := by
          simp [stepCallback, renderCallback, hm, h1]
        rw [hstep]
        exact ⟨h1, h2, h3, h4, h5, h6, Or.inr ⟨d1, hm⟩⟩
      · refine ⟨?_, ?_, ?_, ?_, ?_, ?_, Or.inr ⟨d, ?_⟩⟩ <;>
          simp [stepCallback, renderCallback, hm, h1, hd, h2, h3, h4, h5, h6]

theorem neverArmed_foldl {D O : Type} [DecidableEq D] (f : D → O)
    (evs : List (CEvent D)) (h : CEvent.trigger ∉ evs) :
    ∀ s : CallbackState D O, NeverArmed s →
      NeverArmed (evs.foldl (stepCallback f) s) := by
  induction evs with
  | nil => intro s hs; exact hs
  | cons e es ih =>
    intro s hs
    rw [List.mem_cons] at h
    push_neg at h
    exact ih h.2 _ (neverArmed_step f s e (fun he => h.1 he.symm) hs)

theorem neverArmed_run {D O : Type} [DecidableEq D] (f : D → O)
    (evs : List (CEvent D)) (h : CEvent.trigger ∉ evs) :
    NeverArmed (runCallback f evs) :=
  neverArmed_foldl f evs h initCallback neverArmed_init

/-- C8: for every deferred/dynamic hook instance and every event sequence
in which the trigger callback is never emitted, no task is ever
constructed — the spawn count stays 0 and nothing is in flight — and the
hook's `data` is `None` at every render. -/
theorem C8_no_trigger_no_task :
    ∀ (f : Nat → Option Nat) (evs : List (CEvent Nat)),
      CEvent.trigger ∉ evs →
      (runCallback f evs).serials = 0
      ∧ (runCallback f evs).pending = []
      ∧ dynResponseData (callbackView (runCallback f evs))
        = DynData.noData := by
  intro f evs h
  obtain ⟨h1, h2, h3, h4, h5, h6, h7⟩ := neverArmed_run f evs h
  refine ⟨h2, h3, ?_⟩
  rcases h7 with hm | ⟨d, hm⟩ <;>
    simp [callbackView, hm, h4, dynResponseData]

theorem C8_no_trigger_no_task_witness :
    (runCallback (fun _ => (none : Option Nat))
      [CEvent.render 3, CEvent.complete 0, CEvent.render 4]).serials = 0
    ∧ (runCallback (fun _ => (none : Option Nat))
        [CEvent.render 3, CEvent.complete 0, CEvent.render 4]).pending = []
    ∧ dynResponseData (callbackView (runCallback (fun _ => (none : Option Nat))
        [CEvent.render 3, CEvent.complete 0, CEvent.render 4]))
      = DynData.noData :=
  C8_no_trigger_no_task (fun _ => none)
    [CEvent.render 3, CEvent.complete 0, CEvent.render 4] (by decide)

/-- The slot invariant of `use_future_with_deps`: serials of spawned
futures are below the slot's serial counter; the memo-held suspension's
pending task (when still in flight) carries the slot's current
generation — it is the most recently spawned task — and once the held
suspension has resolved the output cell holds a value. -/
def FutureInv {D O : Type} (s : FutureState D O) : Prop :=
  (∀ t ∈ s.pending, t.serial < s.serials)
  ∧ (∀ sn ∈ s.resolved, sn < s.serials)
  ∧ (∀ m, s.memo = some m →
      m.result < s.serials
      ∧ (∀ t ∈ s.pending, t.serial = m.result → t.gen = s.latest_id)
      ∧ (s.resolved.contains m.result = true → s.output.isSome = true))

theorem futureInv_init {D O : Type} :
    FutureInv (initFuture : FutureState D O) := by
  simp [FutureInv, initFuture]

theorem futureInv_spawn {D O : Type} (f : D → O) (s : FutureState D O)
    (deps : D) (hs : FutureInv s) : FutureInv (spawnFuture f s deps) := by
  obtain ⟨hp, hr, hm⟩ := hs
  refine ⟨?_, ?_, ?_⟩
  · intro t ht
    rw [show (spawnFuture f s deps).pending
        = { serial := s.serials, gen := wrapAdd1 s.latest_id,
            result := f deps } :: s.pending from rfl, List.mem_cons] at ht
    rcases ht with rfl | ht
    · exact Nat.lt_succ_self _
    · exact Nat.lt_succ_of_lt (hp t ht)
  · intro x hx
    exact Nat.lt_succ_of_lt (hr x hx)
  · intro m hmm
    have hmeq : m = { memo_key := deps, result := s.serials } :=
      (Option.some_inj.mp hmm).symm
    subst hmeq
    refine ⟨Nat.lt_succ_self _, ?_, ?_⟩
    · intro t ht hts
      rw [show (spawnFuture f s deps).pending
          = { serial := s.serials, gen := wrapAdd1 s.latest_id,
              result := f deps } :: s.pending from rfl, List.mem_cons] at ht
      rcases ht with rfl | ht
      · rfl
      · exact absurd hts (Nat.ne_of_lt (hp t ht))
    · intro hc
      simp only [spawnFuture, List.contains_eq_any_beq, List.any_eq_true,
        beq_iff_eq] at hc
      obtain ⟨x, hx, hxe⟩ := hc
      exact absurd hxe (Ne.symm (Nat.ne_of_lt (hr x hx)))

theorem futureInv_render {D O : Type} [DecidableEq D] (f : D → O)
    (s : FutureState D O) (deps : D) (hs : FutureInv s) :
    FutureInv (renderFuture f s deps) := by
  match hm : s.memo with
  | none =>
    simpa [renderFuture, hm] using futureInv_spawn f s deps hs
  | some m =>
    by_cases hk : m.memo_key = deps
    · simpa [renderFuture, hm, hk] using hs
    · simpa [renderFuture, hm, hk] using futureInv_spawn f s deps hs

theorem futureInv_complete {D O : Type} (s : FutureState D O) (sn : Nat)
    (hs : FutureInv s) : FutureInv (completeFuture s sn) := by
  obtain ⟨hp, hr, hm⟩ := hs
  match hf : s.pending.find? (fun t => t.serial == sn) with
  | none => simpa [completeFuture, hf] using ⟨hp, hr, hm⟩
  | some t =>
    have htmem : t ∈ s.pending := List.mem_of_find?_eq_some hf
    have htser : t.serial = sn := by
      have := List.find?_some hf
      simpa using this
    refine ⟨?_, ?_, ?_⟩
    · intro u hu
      simp only [completeFuture, hf, List.mem_filter] at hu ⊢
      exact hp u hu.1
    · intro x hx
      simp only [completeFuture, hf, List.mem_cons] at hx ⊢
      rcases hx with rfl | hx
      · exact htser ▸ hp t htmem
      · exact hr x hx
    · intro m hmm
      simp only [completeFuture, hf] at hmm ⊢
      obtain ⟨hm1, hm2, hm3⟩ := hm m hmm
      refine ⟨hm1, ?_, ?_⟩
      · intro u hu hus
        rw [List.mem_filter] at hu
        exact hm2 u hu.1 hus
      · intro hc
        rw [List.contains_cons] at hc
        rcases hb : (m.result == sn) with _ | _
        · rw [hb] at hc
          simp only [Bool.false_or] at hc
          have := hm3 hc
          by_cases hg : s.latest_id = t.gen <;> simp [hg, this]
        · have hms : m.result = sn := by simpa using hb
          have hgen : t.gen = s.latest_id := hm2 t htmem (htser.trans hms.symm)
          simp [hgen.symm]

theorem futureInv_step {D O : Type} [DecidableEq D] (f : D → O)
    (s : FutureState D O) (e : FEvent D) (hs : FutureInv s) :
    FutureInv (stepFuture f s e) := by
  cases e with
  | render deps => exact futureInv_render f s deps hs
  | complete sn => exact futureInv_complete s sn hs

theorem futureInv_run {D O : Type} [DecidableEq D] (f : D → O)
    (evs : List (FEvent D)) : FutureInv (runFuture f evs) := by
  have h : ∀ s : FutureState D O, FutureInv s →
      FutureInv (evs.foldl (stepFuture f) s) := by
    induction evs with
    | nil => intro s hs; exact hs
    | cons e es ih =>
      intro s hs
      exact ih _ (futureInv_step f s e hs)
  exact h initFuture futureInv_init

/-- C9: whenever `use_future_with_deps` returns `Ok(handle)` — the
suspension held for the current key has resumed — the underlying output
state cell holds `Some`, so dereferencing the returned `UseFutureHandle`
never reaches the panicking `None` branch of its internal `unwrap`. -/
theorem C9_ok_handle_deref_safe :
    ∀ (f : Nat → Nat) (evs : List (FEvent Nat)) (o : Option Nat),
      futureView (runFuture f evs) = some o →
      o.isSome = true
      ∧ (UseFutureHandle.mk o).deref.isSome = true := by
  intro f evs o hv
  obtain ⟨_, _, hm⟩ := futureInv_run f evs
  match hmm : (runFuture f evs).memo with
  | none => simp [futureView, hmm] at hv
  | some m =>
    simp only [futureView, hmm] at hv
    by_cases hc : (runFuture f evs).resolved.contains m.result = true
    · rw [if_pos hc] at hv
      have hsome := (hm m hmm).2.2 hc
      have ho : o = (runFuture f evs).output := by
        simpa using hv.symm
      rw [ho]
      exact ⟨hsome, hsome⟩
    · rw [if_neg hc] at hv
      exact absurd hv (by simp)

theorem C9_ok_handle_deref_safe_witness :
    (some 5 : Option Nat).isSome = true
    ∧ (UseFutureHandle.mk (some 5 : Option Nat)).deref.isSome = true :=
  C9_ok_handle_deref_safe (fun d => d)
    [FEvent.render 5, FEvent.complete 0] (some 5) (by decide)

end YewApiHook
